import Mathlib

/-!
Verification of the ScrapeMaster crawl orchestration engine (`src/scraper.py`)
against its natural-language specification.

The embedding models:
* Python `dict` (insertion-ordered, string-keyed) as an association list
  `Dict α := List (String × α)`; `d[k] = v` keeps the position of an existing
  key and appends a fresh key, exactly as CPython dicts do;
* the three tracking stores (`master_urls`, `completed_urls`, `error_urls`) plus
  the append-only `dataset.jsonl` output as a `State` record (durable writes are
  the state itself; file flushing has no further observable effect);
* the network/parse collaborators (`session.get` + `response.text` +
  `BeautifulSoup`) as a function `String → FetchOutcome`: either an exception
  carrying `str(e)` or a response with a status code and a parsed document;
* `scrape_website`, `process_urls`, `ScrapeMaster.__init__`'s topic splitting,
  `_load_or_create_json`, `load_topics_from_file` and `main`'s topic-argument
  resolution, each translated from the corresponding Python function.
-/

/-- A Python `dict` with string keys: an insertion-ordered association list. -/
abbrev Dict (α : Type) := List (String × α)

/-- `list(d.keys())` — the keys in insertion order. -/
def dictKeys {α : Type} (d : Dict α) : List String := d.map (fun p => p.1)

/-- Python `k in d` — key membership. -/
def dictContains {α : Type} (d : Dict α) (k : String) : Bool :=
  (dictKeys d).contains k

/-- Python `d.get(k)` — the value at a key, if present (first binding wins,
which coincides with the unique binding on well-formed dicts). -/
def dictGet {α : Type} (d : Dict α) (k : String) : Option α :=
  (d.find? (fun p => p.1 == k)).map (fun p => p.2)

/-- Python `d[k] = v`: an existing key is updated in place (keeping its
position), a fresh key is appended at the end. -/
def dictInsert {α : Type} (d : Dict α) (k : String) (v : α) : Dict α :=
  if dictContains d k then
    d.map (fun p => if p.1 == k then (k, v) else p)
  else
    d ++ [(k, v)]

/-- Well-formedness of the embedding of a Python dict: keys are distinct
(automatically true of every real `dict`). -/
def DictWF {α : Type} (d : Dict α) : Prop := (dictKeys d).Nodup

theorem dictContains_iff_mem_keys {α : Type} (d : Dict α) (k : String) :
    dictContains d k = true ↔ k ∈ dictKeys d := by
  simp [dictContains]

theorem dictContains_false_iff {α : Type} (d : Dict α) (k : String) :
    dictContains d k = false ↔ k ∉ dictKeys d := by
  rw [← dictContains_iff_mem_keys]
  cases dictContains d k <;> simp

theorem dictKeys_insert_of_contains {α : Type} (d : Dict α) (k : String) (v : α)
    (h : dictContains d k = true) :
    dictKeys (dictInsert d k v) = dictKeys d := by
  simp only [dictInsert, h, if_pos]
  simp only [dictKeys, List.map_map]
  refine List.map_congr_left ?_
  intro p _
  by_cases hpk : p.1 = k
  · simp [Function.comp_def, hpk]
  · simp [Function.comp_def, hpk]

theorem dictKeys_insert_of_not_contains {α : Type} (d : Dict α) (k : String) (v : α)
    (h : dictContains d k = false) :
    dictKeys (dictInsert d k v) = dictKeys d ++ [k] := by
  simp [dictInsert, h, dictKeys]

theorem dictWF_insert {α : Type} (d : Dict α) (k : String) (v : α)
    (h : DictWF d) : DictWF (dictInsert d k v) := by
  unfold DictWF
  cases hc : dictContains d k with
  | true => rw [dictKeys_insert_of_contains d k v hc]; exact h
  | false =>
      rw [dictKeys_insert_of_not_contains d k v hc]
      have hk : k ∉ dictKeys d := (dictContains_false_iff d k).mp hc
      simp [List.nodup_append, DictWF] at h ⊢
      exact ⟨h, hk⟩

theorem find?_update_of_mem {α : Type} (d : Dict α) (k : String) (v : α)
    (h : k ∈ dictKeys d) :
    (d.map (fun p => if p.1 == k then (k, v) else p)).find? (fun p => p.1 == k)
      = some (k, v) := by
  induction d with
  | nil => simp [dictKeys] at h
  | cons q d ih =>
      by_cases hq : q.1 = k
      · simp [hq]
      · have h' : k ∈ dictKeys d := by
          simp only [dictKeys, List.map_cons, List.mem_cons] at h
          rcases h with h1 | h2
          · exact absurd h1.symm hq
          · exact h2
        simp only [List.map_cons]
        rw [if_neg (by simpa using hq)]
        rw [List.find?_cons_of_neg _ (by simpa using hq)]
        exact ih h'

theorem find?_key_of_not_mem {α : Type} (d : Dict α) (k : String)
    (h : k ∉ dictKeys d) :
    d.find? (fun p => p.1 == k) = none := by
  rw [List.find?_eq_none]
  intro p hp
  simp only [beq_iff_eq]
  intro hpk
  exact h (by simp only [dictKeys]; exact List.mem_map.mpr ⟨p, hp, hpk⟩)

theorem dictGet_insert_self {α : Type} (d : Dict α) (k : String) (v : α) :
    dictGet (dictInsert d k v) k = some v := by
  unfold dictInsert dictGet
  cases hc : dictContains d k with
  | true =>
      simp only [if_pos]
      rw [find?_update_of_mem d k v ((dictContains_iff_mem_keys d k).mp hc)]
      rfl
  | false =>
      rw [if_neg (by simp)]
      rw [List.find?_append, find?_key_of_not_mem d k ((dictContains_false_iff d k).mp hc)]
      simp

theorem find?_update_other {α : Type} (d : Dict α) (k k' : String) (v : α)
    (h : k' ≠ k) :
    (d.map (fun p => if p.1 == k then (k, v) else p)).find? (fun p => p.1 == k')
      = d.find? (fun p => p.1 == k') := by
  induction d with
  | nil => rfl
  | cons q d ih =>
      by_cases hq : q.1 = k
      · simp only [List.map_cons]
        rw [if_pos (by simpa using hq)]
        rw [List.find?_cons_of_neg _
          (by simpa using (show ¬k = k' from fun he => h he.symm))]
        rw [List.find?_cons_of_neg _
          (by simp only [hq, beq_iff_eq]; exact fun he => h he.symm)]
        exact ih
      · simp only [List.map_cons]
        rw [if_neg (by simpa using hq)]
        by_cases hq' : q.1 = k'
        · rw [List.find?_cons_of_pos _ (by simpa using hq'),
            List.find?_cons_of_pos _ (by simpa using hq')]
        · rw [List.find?_cons_of_neg _ (by simpa using hq'),
            List.find?_cons_of_neg _ (by simpa using hq')]
          exact ih

theorem dictGet_insert_ne {α : Type} (d : Dict α) (k k' : String) (v : α)
    (h : k' ≠ k) : dictGet (dictInsert d k v) k' = dictGet d k' := by
  unfold dictInsert dictGet
  cases hc : dictContains d k with
  | true =>
      simp only [if_pos]
      rw [find?_update_other d k k' v h]
  | false =>
      rw [if_neg (by simp)]
      rw [List.find?_append]
      have h2 : List.find? (fun p => p.1 == k') [(k, v)] = none := by
        rw [List.find?_eq_none]
        intro p hp
        simp only [List.mem_singleton] at hp
        simp only [hp, beq_iff_eq]
        exact fun he => h he.symm
      rw [h2]
      cases List.find? (fun p => p.1 == k') d <;> simp

theorem dictGet_isSome_iff_contains {α : Type} (d : Dict α) (k : String) :
    (dictGet d k).isSome = dictContains d k := by
  cases hc : dictContains d k with
  | true =>
      have hmem := (dictContains_iff_mem_keys d k).mp hc
      unfold dictGet
      induction d with
      | nil => simp [dictKeys] at hmem
      | cons q d ih =>
          by_cases hq : q.1 = k
          · rw [List.find?_cons_of_pos _ (by simpa using hq)]; rfl
          · have h' : k ∈ dictKeys d := by
              simp only [dictKeys, List.map_cons, List.mem_cons] at hmem
              rcases hmem with h1 | h2
              · exact absurd h1.symm hq
              · exact h2
            rw [List.find?_cons_of_neg _ (by simpa using hq)]
            exact ih (by rw [dictContains_iff_mem_keys]; exact h') h'
  | false =>
      unfold dictGet
      rw [find?_key_of_not_mem d k ((dictContains_false_iff d k).mp hc)]
      rfl

theorem dictGet_eq_none_of_not_contains {α : Type} (d : Dict α) (k : String)
    (h : dictContains d k = false) : dictGet d k = none := by
  have hs := dictGet_isSome_iff_contains d k
  rw [h] at hs
  cases hg : dictGet d k with
  | none => rfl
  | some v => rw [hg] at hs; simp at hs

/-! ## The data model of the scraper -/

/-- A fetched document as seen through `BeautifulSoup(html, 'html.parser')`:
`title` is `soup.title.string` when `soup.title` is truthy (with `html.parser`
a title tag holds one text node, so its `.string` is that text), `none` when the
document has no (or an empty) title tag; `elements` are the document's elements
in document order as `(tag name, get_text() result)` pairs. -/
structure Document where
  title : Option String
  elements : List (String × String)
deriving DecidableEq

/-- Outcome of one fetch-and-parse attempt (`session.get` + `response.text` +
`BeautifulSoup`), the external-collaborator boundary of `scrape_website`:
either an exception was raised, carrying `str(e)` (for a bare
`asyncio.TimeoutError`, i.e. a fetch timeout, `str(e)` is the empty string), or
a response arrived with the given status code and parsed body. -/
inductive FetchOutcome where
  | exn (msg : String)
  | resp (status : Nat) (doc : Document)
deriving DecidableEq

/-- The dict returned by `scrape_website` on success. -/
structure ScrapeResult where
  url : String
  title : String
  content : String
deriving DecidableEq

/-- The tags whose text is concatenated:
`soup.find_all(['p', 'h1', 'h2', 'h3', 'h4', 'h5', 'h6'])`. -/
def contentTags : List String := ["p", "h1", "h2", "h3", "h4", "h5", "h6"]

/-- `' '.join([p.get_text() for p in soup.find_all([...])])`. -/
def extractText (doc : Document) : String :=
  String.intercalate " "
    ((doc.elements.filter (fun e => contentTags.contains e.1)).map (fun e => e.2))

/-- The success dict built by `scrape_website`:
`{'url': url, 'title': soup.title.string if soup.title else '', 'content': text}`. -/
def mkResult (url : String) (doc : Document) : ScrapeResult :=
  { url := url
    title := match doc.title with
             | some t => t
             | none => ""
    content := extractText doc }

/-- The full mutable state of a `ScrapeMaster` instance: the three tracking
dicts (mirrored to `websites_master.json`, `websites_completed.json`,
`websites_errors.json` after every mutation) and the append-only
`final_dataset/dataset.jsonl` record sequence. -/
structure State where
  master_urls : Dict String
  completed_urls : Dict ScrapeResult
  error_urls : Dict String
  output : List ScrapeResult
deriving DecidableEq

/-- `ScrapeMaster.scrape_website(url, session)`, with the fetch/parse
collaborators abstracted to `fetch : String → FetchOutcome`. A non-200 status
raises `Exception(f"HTTP {response.status}")`; the catch-all `except` records
`str(e)` in `error_urls[url]` and returns `None`; a 200 response yields the
extraction dict. The function is total: no failure propagates to the caller. -/
def scrape_website (fetch : String → FetchOutcome) (s : State) (url : String) :
    Option ScrapeResult × State :=
  match fetch url with
  | FetchOutcome.resp status doc =>
      if status = 200 then
        (some (mkResult url doc), s)
      else
        (none, { s with error_urls := dictInsert s.error_urls url ("HTTP " ++ toString status) })
  | FetchOutcome.exn msg =>
      (none, { s with error_urls := dictInsert s.error_urls url msg })

/-- One iteration of the per-URL loop in `process_urls`: call `scrape_website`;
when it returned a result, record it in `completed_urls` and append it to the
JSONL output; then persist both stores (persistence is the state itself). -/
def processStep (fetch : String → FetchOutcome) (s : State) (url : String) : State :=
  match scrape_website fetch s url with
  | (some r, s1) =>
      { s1 with completed_urls := dictInsert s1.completed_urls url r
                output := s1.output ++ [r] }
  | (none, s1) => s1

/-- The processing loop of `process_urls` over an already-computed pending list. -/
def runPending (fetch : String → FetchOutcome) (s : State) (pending : List String) : State :=
  pending.foldl (processStep fetch) s

/-- The discovery loop of `process_urls`: for each topic, `search_google` yields
a URL list and each URL is inserted as `master_urls[url] = topic`. -/
def discover (searchResults : String → List String) (topics : List String)
    (master : Dict String) : Dict String :=
  topics.foldl
    (fun m topic => (searchResults topic).foldl (fun m url => dictInsert m url topic) m)
    master

/-- `pending_urls = [url for url in self.master_urls.keys() if url not in
self.completed_urls and url not in self.error_urls]`. -/
def pendingOf (s : State) : List String :=
  (dictKeys s.master_urls).filter
    (fun url => !dictContains s.completed_urls url && !dictContains s.error_urls url)

/-- The discovery phase of `process_urls`: `if not self.master_urls:` collect
URLs from the topic search, otherwise leave the state untouched. -/
def discoveryPhase (searchResults : String → List String) (topics : List String)
    (s : State) : State :=
  if s.master_urls.isEmpty then
    { s with master_urls := discover searchResults topics s.master_urls }
  else s

/-- `ScrapeMaster.process_urls()`: run discovery if the master list is empty,
compute the pending list, and process it URL by URL. -/
def process_urls (searchResults : String → List String) (fetch : String → FetchOutcome)
    (topics : List String) (s : State) : State :=
  let s1 := discoveryPhase searchResults topics s
  runPending fetch s1 (pendingOf s1)

/-- Instrumented `process_urls` that also returns the list of URLs passed to
`scrape_website`, in call order. -/
def process_urls_trace (searchResults : String → List String)
    (fetch : String → FetchOutcome) (topics : List String) (s : State) :
    State × List String :=
  let s1 := discoveryPhase searchResults topics s
  (pendingOf s1).foldl (fun acc url => (processStep fetch acc.1 url, acc.2 ++ [url]))
    (s1, [])

/-- Python `str.split(sep)` for a one-character separator, at character level:
splitting never yields an empty list (splitting the empty string yields one
empty piece, just like `''.split(',') == ['']`). -/
def pySplit (sep : Char) : List Char → List Char → List (List Char)
  | [], acc => [acc.reverse]
  | c :: cs, acc =>
      if c = sep then acc.reverse :: pySplit sep cs []
      else pySplit sep cs (c :: acc)

/-- The whitespace characters removed by Python `str.strip()`. -/
def isPySpace (c : Char) : Bool :=
  c = ' ' || c = '\t' || c = '\n' || c = '\r' || c = '\x0b' || c = '\x0c'

/-- Python `str.strip()`: drop leading and trailing whitespace. -/
def pyStrip (cs : List Char) : List Char :=
  ((cs.dropWhile isPySpace).reverse.dropWhile isPySpace).reverse

/-- `[t.strip() for t in topics.split(',')]` from `ScrapeMaster.__init__`. -/
def splitTopics (topics : String) : List String :=
  (pySplit ',' topics.data []).map (fun cs => String.mk (pyStrip cs))

/-- `self.urls_per_topic = num_websites // len(self.topics)` from
`ScrapeMaster.__init__` (Python `//` on nonnegative ints is `Nat` division). -/
def urls_per_topic (num_websites : Nat) (topics : String) : Nat :=
  num_websites / (splitTopics topics).length

/-! ## Per-step lemmas about `scrape_website` and `processStep` -/

theorem processStep_exn (fetch : String → FetchOutcome) (s : State) (url msg : String)
    (h : fetch url = FetchOutcome.exn msg) :
    processStep fetch s url = { s with error_urls := dictInsert s.error_urls url msg } := by
  simp [processStep, scrape_website, h]

theorem processStep_ok (fetch : String → FetchOutcome) (s : State) (url : String)
    (doc : Document) (h : fetch url = FetchOutcome.resp 200 doc) :
    processStep fetch s url =
      { s with completed_urls := dictInsert s.completed_urls url (mkResult url doc)
               output := s.output ++ [mkResult url doc] } := by
  simp [processStep, scrape_website, h]

theorem processStep_badStatus (fetch : String → FetchOutcome) (s : State) (url : String)
    (st : Nat) (doc : Document) (h : fetch url = FetchOutcome.resp st doc)
    (hst : st ≠ 200) :
    processStep fetch s url =
      { s with error_urls := dictInsert s.error_urls url ("HTTP " ++ toString st) } := by
  simp [processStep, scrape_website, h, hst]

theorem processStep_master (fetch : String → FetchOutcome) (s : State) (url : String) :
    (processStep fetch s url).master_urls = s.master_urls := by
  cases hf : fetch url with
  | exn msg => rw [processStep_exn fetch s url msg hf]
  | resp st doc =>
      by_cases hst : st = 200
      · subst hst; rw [processStep_ok fetch s url doc hf]
      · rw [processStep_badStatus fetch s url st doc hf hst]

theorem processStep_completed_other (fetch : String → FetchOutcome) (s : State)
    (url u : String) (h : u ≠ url) :
    dictGet (processStep fetch s url).completed_urls u = dictGet s.completed_urls u := by
  cases hf : fetch url with
  | exn msg => rw [processStep_exn fetch s url msg hf]
  | resp st doc =>
      by_cases hst : st = 200
      · subst hst
        rw [processStep_ok fetch s url doc hf]
        exact dictGet_insert_ne s.completed_urls url u (mkResult url doc) h
      · rw [processStep_badStatus fetch s url st doc hf hst]

theorem processStep_error_other (fetch : String → FetchOutcome) (s : State)
    (url u : String) (h : u ≠ url) :
    dictGet (processStep fetch s url).error_urls u = dictGet s.error_urls u := by
  cases hf : fetch url with
  | exn msg =>
      rw [processStep_exn fetch s url msg hf]
      exact dictGet_insert_ne s.error_urls url u msg h
  | resp st doc =>
      by_cases hst : st = 200
      · subst hst; rw [processStep_ok fetch s url doc hf]
      · rw [processStep_badStatus fetch s url st doc hf hst]
        exact dictGet_insert_ne s.error_urls url u ("HTTP " ++ toString st) h

/-! ## Lemmas about the processing loop -/

theorem runPending_nil (fetch : String → FetchOutcome) (s : State) :
    runPending fetch s [] = s := rfl

theorem runPending_cons (fetch : String → FetchOutcome) (s : State) (u : String)
    (l : List String) :
    runPending fetch s (u :: l) = runPending fetch (processStep fetch s u) l := rfl

theorem runPending_master (fetch : String → FetchOutcome) (s : State) (l : List String) :
    (runPending fetch s l).master_urls = s.master_urls := by
  induction l generalizing s with
  | nil => rfl
  | cons u l ih =>
      rw [runPending_cons, ih, processStep_master]

theorem runPending_completed_not_mem (fetch : String → FetchOutcome) (s : State)
    (l : List String) (u : String) (h : u ∉ l) :
    dictGet (runPending fetch s l).completed_urls u = dictGet s.completed_urls u := by
  induction l generalizing s with
  | nil => rfl
  | cons a l ih =>
      have hne : u ≠ a := fun he => h (he ▸ List.mem_cons_self a l)
      have hnl : u ∉ l := fun hm => h (List.mem_cons_of_mem a hm)
      rw [runPending_cons, ih (processStep fetch s a) hnl,
        processStep_completed_other fetch s a u hne]

theorem runPending_error_not_mem (fetch : String → FetchOutcome) (s : State)
    (l : List String) (u : String) (h : u ∉ l) :
    dictGet (runPending fetch s l).error_urls u = dictGet s.error_urls u := by
  induction l generalizing s with
  | nil => rfl
  | cons a l ih =>
      have hne : u ≠ a := fun he => h (he ▸ List.mem_cons_self a l)
      have hnl : u ∉ l := fun hm => h (List.mem_cons_of_mem a hm)
      rw [runPending_cons, ih (processStep fetch s a) hnl,
        processStep_error_other fetch s a u hne]

/-- What the processing loop does at a URL it visits exactly once: the outcome
of its single `scrape_website` call is recorded, and the other store is left
untouched at that key. -/
theorem runPending_effect (fetch : String → FetchOutcome) (s : State)
    (l : List String) (u : String) (hl : l.Nodup) (hu : u ∈ l) :
    (∀ msg, fetch u = FetchOutcome.exn msg →
        dictGet (runPending fetch s l).error_urls u = some msg ∧
        dictGet (runPending fetch s l).completed_urls u = dictGet s.completed_urls u) ∧
    (∀ doc, fetch u = FetchOutcome.resp 200 doc →
        dictGet (runPending fetch s l).completed_urls u = some (mkResult u doc) ∧
        dictGet (runPending fetch s l).error_urls u = dictGet s.error_urls u) ∧
    (∀ st doc, fetch u = FetchOutcome.resp st doc → st ≠ 200 →
        dictGet (runPending fetch s l).error_urls u = some ("HTTP " ++ toString st) ∧
        dictGet (runPending fetch s l).completed_urls u = dictGet s.completed_urls u) := by
  induction l generalizing s with
  | nil => cases hu
  | cons a l ih =>
      rw [runPending_cons]
      rcases List.mem_cons.mp hu with rfl | hmem
      · -- u is processed first, then never revisited (nodup)
        have hnl : u ∉ l := (List.nodup_cons.mp hl).1
        refine ⟨?_, ?_, ?_⟩
        · intro msg hf
          rw [runPending_error_not_mem fetch _ l u hnl,
            runPending_completed_not_mem fetch _ l u hnl,
            processStep_exn fetch s u msg hf]
          exact ⟨dictGet_insert_self s.error_urls u msg, rfl⟩
        · intro doc hf
          rw [runPending_error_not_mem fetch _ l u hnl,
            runPending_completed_not_mem fetch _ l u hnl,
            processStep_ok fetch s u doc hf]
          exact ⟨dictGet_insert_self s.completed_urls u (mkResult u doc), rfl⟩
        · intro st doc hf hst
          rw [runPending_error_not_mem fetch _ l u hnl,
            runPending_completed_not_mem fetch _ l u hnl,
            processStep_badStatus fetch s u st doc hf hst]
          exact ⟨dictGet_insert_self s.error_urls u ("HTTP " ++ toString st), rfl⟩
      · -- u comes later; the first step does not touch it
        have hne : u ≠ a := fun he => (List.nodup_cons.mp hl).1 (he ▸ hmem)
        have ihs := ih (processStep fetch s a) (List.nodup_cons.mp hl).2 hmem
        refine ⟨?_, ?_, ?_⟩
        · intro msg hf
          rcases ihs.1 msg hf with ⟨h1, h2⟩
          rw [processStep_completed_other fetch s a u hne] at h2
          exact ⟨h1, h2⟩
        · intro doc hf
          rcases ihs.2.1 doc hf with ⟨h1, h2⟩
          rw [processStep_error_other fetch s a u hne] at h2
          exact ⟨h1, h2⟩
        · intro st doc hf hst
          rcases ihs.2.2 st doc hf hst with ⟨h1, h2⟩
          rw [processStep_completed_other fetch s a u hne] at h2
          exact ⟨h1, h2⟩

/-- Everything the loop appends to the dataset output comes from a visited URL
whose fetch succeeded with status 200. -/
theorem runPending_output (fetch : String → FetchOutcome) (s : State)
    (l : List String) :
    ∃ appended, (runPending fetch s l).output = s.output ++ appended ∧
      ∀ r ∈ appended, r.url ∈ l ∧ ∃ doc,
        fetch r.url = FetchOutcome.resp 200 doc ∧ r = mkResult r.url doc := by
  induction l generalizing s with
  | nil => exact ⟨[], by simp [runPending_nil], by simp⟩
  | cons a l ih =>
      rw [runPending_cons]
      rcases ih (processStep fetch s a) with ⟨ap, hap, hmem⟩
      cases hf : fetch a with
      | exn msg =>
          have ho : (processStep fetch s a).output = s.output := by
            rw [processStep_exn fetch s a msg hf]
          rw [ho] at hap
          exact ⟨ap, hap, fun r hr =>
            ⟨List.mem_cons_of_mem a (hmem r hr).1, (hmem r hr).2⟩⟩
      | resp st doc =>
          by_cases hst : st = 200
          · subst hst
            have ho : (processStep fetch s a).output = s.output ++ [mkResult a doc] := by
              rw [processStep_ok fetch s a doc hf]
            rw [ho] at hap
            refine ⟨mkResult a doc :: ap, by simpa using hap, ?_⟩
            intro r hr
            rcases List.mem_cons.mp hr with rfl | hr'
            · exact ⟨by simp [mkResult, List.mem_cons_self],
                doc, by simpa [mkResult] using hf, by simp [mkResult]⟩
            · exact ⟨List.mem_cons_of_mem a (hmem r hr').1, (hmem r hr').2⟩
          · have ho : (processStep fetch s a).output = s.output := by
              rw [processStep_badStatus fetch s a st doc hf hst]
            rw [ho] at hap
            exact ⟨ap, hap, fun r hr =>
              ⟨List.mem_cons_of_mem a (hmem r hr).1, (hmem r hr).2⟩⟩

/-- Key-set disjointness of completed and failed stores is preserved by the
processing loop, provided every URL in the list starts outside both stores. -/
theorem runPending_disjoint (fetch : String → FetchOutcome) (s : State)
    (l : List String) (hl : l.Nodup)
    (hout : ∀ u ∈ l, dictContains s.completed_urls u = false ∧
      dictContains s.error_urls u = false)
    (hdis : ∀ u ∈ dictKeys s.completed_urls, u ∉ dictKeys s.error_urls) :
    ∀ u ∈ dictKeys (runPending fetch s l).completed_urls,
      u ∉ dictKeys (runPending fetch s l).error_urls := by
  induction l generalizing s with
  | nil => exact hdis
  | cons a l ih =>
      rw [runPending_cons]
      have ha := hout a (List.mem_cons_self a l)
      have haC : a ∉ dictKeys s.completed_urls := (dictContains_false_iff _ a).mp ha.1
      have haE : a ∉ dictKeys s.error_urls := (dictContains_false_iff _ a).mp ha.2
      -- the step's effect on the two key sets
      have hstep : ∀ u ∈ dictKeys (processStep fetch s a).completed_urls,
          u ∉ dictKeys (processStep fetch s a).error_urls := by
        cases hf : fetch a with
        | exn msg =>
            rw [processStep_exn fetch s a msg hf]
            intro u huC
            rw [dictKeys_insert_of_not_contains s.error_urls a msg ha.2]
            intro huE
            rcases List.mem_append.mp huE with huE' | huE'
            · exact hdis u huC huE'
            · simp only [List.mem_singleton] at huE'
              exact haC (huE' ▸ huC)
        | resp st doc =>
            by_cases hst : st = 200
            · subst hst
              rw [processStep_ok fetch s a doc hf]
              intro u huC
              rw [dictKeys_insert_of_not_contains s.completed_urls a _ ha.1] at huC
              rcases List.mem_append.mp huC with huC' | huC'
              · exact hdis u huC'
              · simp only [List.mem_singleton] at huC'
                exact huC' ▸ haE
            · rw [processStep_badStatus fetch s a st doc hf hst]
              intro u huC
              rw [dictKeys_insert_of_not_contains s.error_urls a _ ha.2]
              intro huE
              rcases List.mem_append.mp huE with huE' | huE'
              · exact hdis u huC huE'
              · simp only [List.mem_singleton] at huE'
                exact haC (huE' ▸ huC)
      -- the step keeps the remaining URLs outside both stores
      have hout' : ∀ u ∈ l, dictContains (processStep fetch s a).completed_urls u = false ∧
          dictContains (processStep fetch s a).error_urls u = false := by
        intro u hu
        have hne : u ≠ a := fun he => (List.nodup_cons.mp hl).1 (he ▸ hu)
        have hu' := hout u (List.mem_cons_of_mem a hu)
        constructor
        · have hc := hu'.1
          rw [← dictGet_isSome_iff_contains] at hc ⊢
          rw [processStep_completed_other fetch s a u hne]
          exact hc
        · have hc := hu'.2
          rw [← dictGet_isSome_iff_contains] at hc ⊢
          rw [processStep_error_other fetch s a u hne]
          exact hc
      exact ih (processStep fetch s a) (List.nodup_cons.mp hl).2 hout' hstep

theorem foldl_step_trace (fetch : String → FetchOutcome) (l : List String) :
    ∀ (s : State) (tr : List String),
      l.foldl (fun acc url => (processStep fetch acc.1 url, acc.2 ++ [url])) (s, tr) =
        (runPending fetch s l, tr ++ l) := by
  induction l with
  | nil => intro s tr; simp [runPending_nil]
  | cons a l ih =>
      intro s tr
      simp only [List.foldl_cons]
      rw [ih (processStep fetch s a) (tr ++ [a]), runPending_cons]
      simp

/-- The instrumented run traces exactly the pending list and computes the same
final state as `process_urls`. -/
theorem process_urls_trace_spec (searchResults : String → List String)
    (fetch : String → FetchOutcome) (topics : List String) (s : State) :
    process_urls_trace searchResults fetch topics s =
      (process_urls searchResults fetch topics s,
        pendingOf (discoveryPhase searchResults topics s)) := by
  simp only [process_urls_trace, process_urls]
  rw [foldl_step_trace]
  simp

/-! ## Lemmas about discovery and the pending computation -/

theorem discover_wf (searchResults : String → List String) (topics : List String)
    (master : Dict String) (h : DictWF master) :
    DictWF (discover searchResults topics master) := by
  unfold discover
  induction topics generalizing master with
  | nil => exact h
  | cons t ts ih =>
      simp only [List.foldl_cons]
      apply ih
      generalize searchResults t = urls
      induction urls generalizing master with
      | nil => exact h
      | cons u us ihu =>
          simp only [List.foldl_cons]
          exact ihu (dictInsert master u t) (dictWF_insert master u t h)

theorem discoveryPhase_completed (searchResults : String → List String)
    (topics : List String) (s : State) :
    (discoveryPhase searchResults topics s).completed_urls = s.completed_urls := by
  unfold discoveryPhase
  split <;> rfl

theorem discoveryPhase_error (searchResults : String → List String)
    (topics : List String) (s : State) :
    (discoveryPhase searchResults topics s).error_urls = s.error_urls := by
  unfold discoveryPhase
  split <;> rfl

theorem discoveryPhase_output (searchResults : String → List String)
    (topics : List String) (s : State) :
    (discoveryPhase searchResults topics s).output = s.output := by
  unfold discoveryPhase
  split <;> rfl

theorem discoveryPhase_of_ne_nil (searchResults : String → List String)
    (topics : List String) (s : State) (h : s.master_urls ≠ []) :
    discoveryPhase searchResults topics s = s := by
  have hm : s.master_urls.isEmpty = false := by
    cases hml : s.master_urls with
    | nil => exact absurd hml h
    | cons a l => rfl
  simp [discoveryPhase, hm]

theorem discoveryPhase_wf (searchResults : String → List String)
    (topics : List String) (s : State) (h : DictWF s.master_urls) :
    DictWF (discoveryPhase searchResults topics s).master_urls := by
  unfold discoveryPhase
  split
  · exact discover_wf searchResults topics s.master_urls h
  · exact h

theorem pendingOf_mem (s : State) (u : String) :
    u ∈ pendingOf s ↔ u ∈ dictKeys s.master_urls ∧
      dictContains s.completed_urls u = false ∧
      dictContains s.error_urls u = false := by
  unfold pendingOf
  rw [List.mem_filter]
  constructor
  · rintro ⟨h1, h2⟩
    simp only [Bool.and_eq_true, Bool.not_eq_true'] at h2
    exact ⟨h1, h2.1, h2.2⟩
  · rintro ⟨h1, h2, h3⟩
    refine ⟨h1, ?_⟩
    simp [h2, h3]

theorem pendingOf_nodup (s : State) (h : DictWF s.master_urls) :
    (pendingOf s).Nodup :=
  List.Nodup.filter _ h

/-! ## Concrete fixtures used to instantiate theorems with hypotheses -/

/-- A sample parsed document. -/
def docW : Document :=
  { title := some "Example Domain"
    elements := [("p", "hello"), ("div", "skipped"), ("h1", "world")] }

/-- A loaded state with one discovered URL and empty completed/failed stores. -/
def stateW : State :=
  { master_urls := [("https://example.com/a", "news")]
    completed_urls := []
    error_urls := []
    output := [] }

/-- A fetch behaviour where every request succeeds with status 200. -/
def fetchOkW : String → FetchOutcome := fun _ => FetchOutcome.resp 200 docW

/-- A fetch behaviour where every request raises `Exception("Connection refused")`. -/
def fetchExnW : String → FetchOutcome := fun _ => FetchOutcome.exn "Connection refused"

/-- A fetch behaviour where every request answers with status 201. -/
def fetch201W : String → FetchOutcome := fun _ => FetchOutcome.resp 201 docW

/-- A topic search returning one URL for every topic. -/
def searchW : String → List String := fun _ => ["https://example.com/a"]

/-- A topic search returning no URLs. -/
def searchW2 : String → List String := fun _ => []

/-! ## C4 — integer division of the website budget across topics -/

/-- C4: for every requested website count `W` and topic string splitting into
`T` topics, `ScrapeMaster.__init__` sets `urls_per_topic = W // T` (floor
division), the total requested across all topics never exceeds `W`, and in
particular `W = 10, T = 3` gives `urls_per_topic = 3` with a total of 9 — the
remainder of the uneven division is silently dropped. -/
theorem urls_per_topic_floor_div (W : Nat) (topics : String) (T : Nat)
    (hT : (splitTopics topics).length = T) :
    urls_per_topic W topics = W / T ∧
    T * urls_per_topic W topics ≤ W ∧
    (W = 10 → T = 3 → urls_per_topic W topics = 3 ∧
      T * urls_per_topic W topics = 9 ∧ 9 < W) := by
  have h1 : urls_per_topic W topics = W / T := by
    unfold urls_per_topic
    rw [hT]
  refine ⟨h1, ?_, ?_⟩
  · rw [h1, Nat.mul_comm]
    exact Nat.div_mul_le_self W T
  · intro hW hT3
    subst hW; subst hT3
    rw [h1]
    exact ⟨by decide, by decide, by decide⟩

theorem urls_per_topic_floor_div_witness :
    (splitTopics "ai, ml, crypto").length = 3 ∧
    urls_per_topic 10 "ai, ml, crypto" = 10 / 3 ∧
    urls_per_topic 10 "ai, ml, crypto" = 3 :=
  ⟨by decide,
   (urls_per_topic_floor_div 10 "ai, ml, crypto" 3 (by decide)).1,
   ((urls_per_topic_floor_div 10 "ai, ml, crypto" 3 (by decide)).2.2 rfl rfl).1⟩

/-! ## C5 — scrape_website never propagates a failure -/

/-- C5: `scrape_website` is total over every collaborator behaviour (it is a
Lean function, mirroring the catch-all `except Exception` around the whole
body): it returns `None` (here `none`) exactly on the failure paths, and on
failure it has recorded a reason string for the URL in the failed-set; on
success it returns the extraction result and leaves the state — in particular
`error_urls` — untouched. It never mutates `completed_urls`, `master_urls` or
the output itself. -/
theorem scrape_website_total (fetch : String → FetchOutcome) (s : State) (url : String) :
    ((scrape_website fetch s url).1 = none →
      ∃ reason, dictGet (scrape_website fetch s url).2.error_urls url = some reason) ∧
    (∀ r, (scrape_website fetch s url).1 = some r → (scrape_website fetch s url).2 = s) ∧
    (scrape_website fetch s url).2.completed_urls = s.completed_urls ∧
    (scrape_website fetch s url).2.master_urls = s.master_urls ∧
    (scrape_website fetch s url).2.output = s.output := by
  cases hf : fetch url with
  | exn msg =>
      have he : scrape_website fetch s url =
          (none, { s with error_urls := dictInsert s.error_urls url msg }) := by
        simp [scrape_website, hf]
      rw [he]
      exact ⟨fun _ => ⟨msg, dictGet_insert_self s.error_urls url msg⟩,
        fun r hr => by simp at hr, rfl, rfl, rfl⟩
  | resp st doc =>
      by_cases hst : st = 200
      · subst hst
        have he : scrape_website fetch s url = (some (mkResult url doc), s) := by
          simp [scrape_website, hf]
        rw [he]
        exact ⟨fun h => by simp at h, fun r _ => rfl, rfl, rfl, rfl⟩
      · have he : scrape_website fetch s url =
            (none, { s with
              error_urls := dictInsert s.error_urls url ("HTTP " ++ toString st) }) := by
          simp [scrape_website, hf, hst]
        rw [he]
        exact ⟨fun _ => ⟨"HTTP " ++ toString st,
            dictGet_insert_self s.error_urls url ("HTTP " ++ toString st)⟩,
          fun r hr => by simp at hr, rfl, rfl, rfl⟩

theorem scrape_website_total_witness :
    ∃ reason, dictGet (scrape_website fetchExnW stateW "https://example.com/a").2.error_urls
      "https://example.com/a" = some reason :=
  (scrape_website_total fetchExnW stateW "https://example.com/a").1 (by rfl)

/-! ## C10 — success classification is exact-200 -/

/-- C10: every response status other than exactly 200 — 201 and 204 included —
makes `scrape_website` classify the URL as failed, with reason
`"HTTP <status>"` in the failed-set and `None` returned; conversely any
returned result comes from a status-200 response. -/
theorem status_exact_200 (fetch : String → FetchOutcome) (s : State) (url : String) :
    (∀ st doc, fetch url = FetchOutcome.resp st doc → st ≠ 200 →
        (scrape_website fetch s url).1 = none ∧
        dictGet (scrape_website fetch s url).2.error_urls url =
          some ("HTTP " ++ toString st)) ∧
    (∀ r, (scrape_website fetch s url).1 = some r →
        ∃ doc, fetch url = FetchOutcome.resp 200 doc ∧ r = mkResult url doc) := by
  constructor
  · intro st doc hf hst
    have he : scrape_website fetch s url =
        (none, { s with
          error_urls := dictInsert s.error_urls url ("HTTP " ++ toString st) }) := by
      simp [scrape_website, hf, hst]
    rw [he]
    exact ⟨rfl, dictGet_insert_self s.error_urls url ("HTTP " ++ toString st)⟩
  · intro r hr
    cases hf : fetch url with
    | exn msg => simp [scrape_website, hf] at hr
    | resp st doc =>
        by_cases hst : st = 200
        · subst hst
          refine ⟨doc, rfl, ?_⟩
          simp [scrape_website, hf] at hr
          exact hr.symm
        · simp [scrape_website, hf, hst] at hr

theorem status_exact_200_witness :
    (scrape_website fetch201W stateW "https://example.com/a").1 = none ∧
    dictGet (scrape_website fetch201W stateW "https://example.com/a").2.error_urls
      "https://example.com/a" = some ("HTTP " ++ toString 201) :=
  (status_exact_200 fetch201W stateW "https://example.com/a").1 201 docW rfl (by decide)

/-! ## C9 — shape of a successful extraction result -/

/-- Space-joining written independently of `String.intercalate`, following the
spec's words: the concatenation, space-separated and in order, of a list of
text fragments. -/
def specJoin : List String → String
  | [] => ""
  | [t] => t
  | t :: ts => t ++ " " ++ specJoin ts

theorem intercalate_go_spec (as : List String) :
    ∀ acc : String, String.intercalate.go acc " " as = specJoin (acc :: as) := by
  induction as with
  | nil => intro acc; rfl
  | cons a as ih =>
      intro acc
      show String.intercalate.go (acc ++ " " ++ a) " " as = specJoin (acc :: a :: as)
      rw [ih (acc ++ " " ++ a)]
      cases as with
      | nil => rfl
      | cons b bs =>
          show (acc ++ " " ++ a) ++ " " ++ specJoin (b :: bs) =
            acc ++ " " ++ (a ++ " " ++ specJoin (b :: bs))
          simp [String.append_assoc]

theorem intercalate_eq_specJoin (l : List String) :
    String.intercalate " " l = specJoin l := by
  cases l with
  | nil => rfl
  | cons a as => exact intercalate_go_spec as a

/-- C9: on every successful (status-200) fetch, the result of `scrape_website`
carries the URL itself, a title that is the empty string whenever the document
has no title — so the title field is always a string, never a missing value —
and a content field equal to the space-joined, document-order concatenation of
the text of the `p`/`h1`–`h6` elements. -/
theorem extraction_shape (fetch : String → FetchOutcome) (s : State) (url : String)
    (doc : Document) (h : fetch url = FetchOutcome.resp 200 doc) :
    ∃ r, (scrape_website fetch s url).1 = some r ∧
      r.url = url ∧
      (doc.title = none → r.title = "") ∧
      (∀ t, doc.title = some t → r.title = t) ∧
      r.content = specJoin
        ((doc.elements.filter (fun e => contentTags.contains e.1)).map (fun e => e.2)) := by
  refine ⟨mkResult url doc, by simp [scrape_website, h], rfl, ?_, ?_, ?_⟩
  · intro ht
    simp [mkResult, ht]
  · intro t ht
    simp [mkResult, ht]
  · show extractText doc = _
    unfold extractText
    exact intercalate_eq_specJoin _

theorem extraction_shape_witness :
    ∃ r, (scrape_website fetchOkW stateW "https://example.com/a").1 = some r ∧
      r.url = "https://example.com/a" ∧
      (docW.title = none → r.title = "") ∧
      (∀ t, docW.title = some t → r.title = t) ∧
      r.content = specJoin
        ((docW.elements.filter (fun e => contentTags.contains e.1)).map (fun e => e.2)) :=
  extraction_shape fetchOkW stateW "https://example.com/a" docW rfl

/-! ## C3 — discovery is skipped when the master list is non-empty -/

/-- C3: when the discovered-set is non-empty at the start of `process_urls`,
the discovery phase is skipped: the discovered-set is unchanged by the whole
run, and the run's result does not depend on the topic-search collaborator at
all (so no search is consulted), whatever topics were supplied. -/
theorem discovery_idempotent (searchResults : String → List String)
    (fetch : String → FetchOutcome) (topics : List String) (s : State)
    (h : s.master_urls ≠ []) :
    (process_urls searchResults fetch topics s).master_urls = s.master_urls ∧
    (∀ searchResults2 : String → List String,
      process_urls searchResults2 fetch topics s =
        process_urls searchResults fetch topics s) := by
  constructor
  · simp only [process_urls]
    rw [discoveryPhase_of_ne_nil searchResults topics s h, runPending_master]
  · intro searchResults2
    simp only [process_urls]
    rw [discoveryPhase_of_ne_nil searchResults topics s h,
      discoveryPhase_of_ne_nil searchResults2 topics s h]

theorem discovery_idempotent_witness :
    (process_urls searchW fetchExnW ["news"] stateW).master_urls = stateW.master_urls ∧
    process_urls searchW2 fetchExnW ["news"] stateW =
      process_urls searchW fetchExnW ["news"] stateW :=
  ⟨(discovery_idempotent searchW fetchExnW ["news"] stateW (by decide)).1,
   (discovery_idempotent searchW fetchExnW ["news"] stateW (by decide)).2 searchW2⟩

/-! ## C1 — a URL is never in both the completed-set and the failed-set -/

/-- C1: starting from any state whose completed and failed key-sets are
disjoint (e.g. the disjoint loaded sets of any earlier runs), a `process_urls`
run preserves exclusivity: no URL ends up a key of both `completed_urls` and
`error_urls`; moreover a URL already in either set is excluded from the
pending list and is never handed to `scrape_website` again. Since the final
state again satisfies the hypothesis, the invariant holds across any number of
runs. -/
theorem completed_failed_exclusive (searchResults : String → List String)
    (fetch : String → FetchOutcome) (topics : List String) (s : State)
    (hwf : DictWF s.master_urls)
    (hdis : ∀ u ∈ dictKeys s.completed_urls, u ∉ dictKeys s.error_urls) :
    (∀ u ∈ dictKeys (process_urls searchResults fetch topics s).completed_urls,
        u ∉ dictKeys (process_urls searchResults fetch topics s).error_urls) ∧
    (∀ u, (dictContains s.completed_urls u = true ∨ dictContains s.error_urls u = true) →
        u ∉ pendingOf (discoveryPhase searchResults topics s)) := by
  constructor
  · simp only [process_urls]
    have hwf1 : DictWF (discoveryPhase searchResults topics s).master_urls :=
      discoveryPhase_wf searchResults topics s hwf
    have hdis1 : ∀ u ∈ dictKeys (discoveryPhase searchResults topics s).completed_urls,
        u ∉ dictKeys (discoveryPhase searchResults topics s).error_urls := by
      rw [discoveryPhase_completed, discoveryPhase_error]
      exact hdis
    have hout : ∀ u ∈ pendingOf (discoveryPhase searchResults topics s),
        dictContains (discoveryPhase searchResults topics s).completed_urls u = false ∧
        dictContains (discoveryPhase searchResults topics s).error_urls u = false :=
      fun u hu => ((pendingOf_mem _ u).mp hu).2
    exact runPending_disjoint fetch _ _ (pendingOf_nodup _ hwf1) hout hdis1
  · intro u hu hmem
    rcases (pendingOf_mem _ u).mp hmem with ⟨_, h2, h3⟩
    rw [discoveryPhase_completed] at h2
    rw [discoveryPhase_error] at h3
    rcases hu with h | h
    · rw [h] at h2; cases h2
    · rw [h] at h3; cases h3

theorem completed_failed_exclusive_witness :
    (∀ u ∈ dictKeys (process_urls searchW fetchOkW ["news"] stateW).completed_urls,
        u ∉ dictKeys (process_urls searchW fetchOkW ["news"] stateW).error_urls) ∧
    (∀ u, (dictContains stateW.completed_urls u = true ∨
        dictContains stateW.error_urls u = true) →
        u ∉ pendingOf (discoveryPhase searchW ["news"] stateW)) :=
  completed_failed_exclusive searchW fetchOkW ["news"] stateW
    (by unfold DictWF; decide) (by decide)

/-! ## C2 — resumability: a run processes exactly N − K − F URLs -/

/-- C2: for every loaded state whose discovered-set holds N URLs, of which the
K completed keys and F failed keys are among them and mutually disjoint, a run
of `process_urls` computes a pending list of exactly N − K − F URLs, and the
URLs handed to `scrape_website` (the trace) are exactly the pending ones: each
pending URL exactly once, any other URL zero times. -/
theorem resumability (searchResults : String → List String)
    (fetch : String → FetchOutcome) (topics : List String) (s : State)
    (hwfM : DictWF s.master_urls) (hwfC : DictWF s.completed_urls)
    (hwfE : DictWF s.error_urls)
    (hsubC : ∀ u ∈ dictKeys s.completed_urls, u ∈ dictKeys s.master_urls)
    (hsubE : ∀ u ∈ dictKeys s.error_urls, u ∈ dictKeys s.master_urls)
    (hdis : ∀ u ∈ dictKeys s.completed_urls, u ∉ dictKeys s.error_urls)
    (hne : s.master_urls ≠ []) :
    (process_urls_trace searchResults fetch topics s).2.length =
      s.master_urls.length - s.completed_urls.length - s.error_urls.length ∧
    (∀ u, (process_urls_trace searchResults fetch topics s).2.count u =
      if dictContains s.master_urls u = true ∧ dictContains s.completed_urls u = false ∧
          dictContains s.error_urls u = false then 1 else 0) := by
  have htr : (process_urls_trace searchResults fetch topics s).2 = pendingOf s := by
    rw [process_urls_trace_spec]
    show pendingOf (discoveryPhase searchResults topics s) = pendingOf s
    rw [discoveryPhase_of_ne_nil searchResults topics s hne]
  constructor
  · rw [htr]
    have hfin : (pendingOf s).toFinset =
        (dictKeys s.master_urls).toFinset \
          ((dictKeys s.completed_urls).toFinset ∪ (dictKeys s.error_urls).toFinset) := by
      ext u
      simp only [List.mem_toFinset, Finset.mem_sdiff, Finset.mem_union]
      rw [pendingOf_mem]
      constructor
      · rintro ⟨h1, h2, h3⟩
        refine ⟨h1, ?_⟩
        rintro (hc | hc)
        · exact (dictContains_false_iff _ u).mp h2 hc
        · exact (dictContains_false_iff _ u).mp h3 hc
      · rintro ⟨h1, h2⟩
        exact ⟨h1, (dictContains_false_iff _ u).mpr (fun hc => h2 (Or.inl hc)),
          (dictContains_false_iff _ u).mpr (fun hc => h2 (Or.inr hc))⟩
    have hsub : (dictKeys s.completed_urls).toFinset ∪ (dictKeys s.error_urls).toFinset ⊆
        (dictKeys s.master_urls).toFinset := by
      intro u hu
      rw [List.mem_toFinset]
      rcases Finset.mem_union.mp hu with h | h
      · exact hsubC u (List.mem_toFinset.mp h)
      · exact hsubE u (List.mem_toFinset.mp h)
    have hdisj : Disjoint (dictKeys s.completed_urls).toFinset
        (dictKeys s.error_urls).toFinset := by
      rw [Finset.disjoint_left]
      intro u hu hu2
      exact hdis u (List.mem_toFinset.mp hu) (List.mem_toFinset.mp hu2)
    have hP : (pendingOf s).length = (pendingOf s).toFinset.card :=
      (List.toFinset_card_of_nodup (pendingOf_nodup s hwfM)).symm
    have hlenM : (dictKeys s.master_urls).toFinset.card = s.master_urls.length := by
      rw [List.toFinset_card_of_nodup hwfM]
      exact List.length_map s.master_urls _
    have hlenC : (dictKeys s.completed_urls).toFinset.card = s.completed_urls.length := by
      rw [List.toFinset_card_of_nodup hwfC]
      exact List.length_map s.completed_urls _
    have hlenE : (dictKeys s.error_urls).toFinset.card = s.error_urls.length := by
      rw [List.toFinset_card_of_nodup hwfE]
      exact List.length_map s.error_urls _
    rw [hP, hfin, Finset.card_sdiff hsub, Finset.card_union_of_disjoint hdisj,
      hlenM, hlenC, hlenE, Nat.sub_sub]
  · intro u
    rw [htr]
    by_cases hcond : dictContains s.master_urls u = true ∧
        dictContains s.completed_urls u = false ∧ dictContains s.error_urls u = false
    · rw [if_pos hcond]
      exact List.count_eq_one_of_mem (pendingOf_nodup s hwfM)
        ((pendingOf_mem s u).mpr
          ⟨(dictContains_iff_mem_keys _ u).mp hcond.1, hcond.2.1, hcond.2.2⟩)
    · rw [if_neg hcond]
      refine List.count_eq_zero.mpr (fun hmem => ?_)
      rcases (pendingOf_mem s u).mp hmem with ⟨h1, h2, h3⟩
      exact hcond ⟨(dictContains_iff_mem_keys _ u).mpr h1, h2, h3⟩

/-- A completed extraction result used in concrete states. -/
def resultA : ScrapeResult :=
  { url := "https://example.com/a", title := "Example Domain", content := "hello world" }

/-- A loaded state with N = 2 discovered URLs, K = 1 completed, F = 0 failed. -/
def stateW2 : State :=
  { master_urls := [("https://example.com/a", "news"), ("https://example.com/b", "news")]
    completed_urls := [("https://example.com/a", resultA)]
    error_urls := []
    output := [resultA] }

theorem resumability_witness :
    stateW2.master_urls.length = 2 ∧ stateW2.completed_urls.length = 1 ∧
    stateW2.error_urls.length = 0 ∧
    (process_urls_trace searchW fetchOkW ["news"] stateW2).2.length =
      stateW2.master_urls.length - stateW2.completed_urls.length -
        stateW2.error_urls.length :=
  ⟨rfl, rfl, rfl,
    (resumability searchW fetchOkW ["news"] stateW2 (by unfold DictWF; decide)
      (by unfold DictWF; decide) (by unfold DictWF; decide)
      (by decide) (by decide) (by decide) (by decide)).1⟩

/-! ## C6 — failure isolation, and the empty timeout reason -/

/-- C6 (amended): a fetch failure for one pending URL does not block the rest
of the run: every other pending URL is still processed (every status-200 fetch
among them ends up completed), the failing URL is a key of the failed-set
mapped to the raised exception's `str(e)` — which is the *empty* string for a
bare `asyncio.TimeoutError`, so not necessarily non-empty — and the failing
URL gains no completed entry and no output record. -/
theorem failure_isolation (searchResults : String → List String)
    (fetch : String → FetchOutcome) (topics : List String) (s : State)
    (url msg : String)
    (hwfM : DictWF s.master_urls)
    (hne : s.master_urls ≠ [])
    (hu : url ∈ pendingOf s)
    (hf : fetch url = FetchOutcome.exn msg) :
    dictGet (process_urls searchResults fetch topics s).error_urls url = some msg ∧
    dictContains (process_urls searchResults fetch topics s).completed_urls url = false ∧
    (∀ r ∈ (process_urls searchResults fetch topics s).output,
      r ∈ s.output ∨ r.url ≠ url) ∧
    (∀ v doc, v ∈ pendingOf s → fetch v = FetchOutcome.resp 200 doc →
      dictGet (process_urls searchResults fetch topics s).completed_urls v =
        some (mkResult v doc)) := by
  have hd : discoveryPhase searchResults topics s = s :=
    discoveryPhase_of_ne_nil searchResults topics s hne
  simp only [process_urls, hd]
  have hnd := pendingOf_nodup s hwfM
  have heff := runPending_effect fetch s (pendingOf s) url hnd hu
  have hCfalse : dictContains s.completed_urls url = false :=
    ((pendingOf_mem s url).mp hu).2.1
  refine ⟨(heff.1 msg hf).1, ?_, ?_, ?_⟩
  · rw [← dictGet_isSome_iff_contains, (heff.1 msg hf).2,
      dictGet_eq_none_of_not_contains s.completed_urls url hCfalse]
    rfl
  · rcases runPending_output fetch s (pendingOf s) with ⟨ap, hap, hmem⟩
    intro r hr
    rw [hap] at hr
    rcases List.mem_append.mp hr with h | h
    · exact Or.inl h
    · refine Or.inr (fun he => ?_)
      rcases (hmem r h).2 with ⟨doc, hfr, _⟩
      rw [he, hf] at hfr
      cases hfr
  · intro v doc hv hfv
    exact ((runPending_effect fetch s (pendingOf s) v hnd hv).2.1 doc hfv).1

/-- A document behind the still-reachable URL in the timeout scenario. -/
def docB : Document := { title := none, elements := [("p", "second page")] }

/-- A loaded state with two pending URLs. -/
def stateC6 : State :=
  { master_urls := [("https://example.com/a", "news"), ("https://example.com/b", "news")]
    completed_urls := []
    error_urls := []
    output := [] }

/-- Fetch behaviour where the first URL times out — aiohttp raises
`asyncio.TimeoutError`, and `str(asyncio.TimeoutError())` is `""` — while the
second URL responds normally. -/
def fetchC6 : String → FetchOutcome := fun u =>
  if u = "https://example.com/a" then FetchOutcome.exn ""
  else FetchOutcome.resp 200 docB

/-- C6 counterexample: after a run in which the first pending URL timed out,
that URL is in the failed-set but its reason string is empty — refuting the
claimed non-empty reason — while the subsequent URL was still processed to
completion. -/
theorem failure_isolation_cex :
    dictGet (process_urls searchW2 fetchC6 ["news"] stateC6).error_urls
        "https://example.com/a" = some "" ∧
    ("" : String).length = 0 ∧
    dictGet (process_urls searchW2 fetchC6 ["news"] stateC6).completed_urls
        "https://example.com/b" = some (mkResult "https://example.com/b" docB) := by
  refine ⟨?_, rfl, ?_⟩ <;> rfl

theorem failure_isolation_witness :
    dictGet (process_urls searchW2 fetchC6 ["news"] stateC6).error_urls
      "https://example.com/a" = some "" ∧
    dictContains (process_urls searchW2 fetchC6 ["news"] stateC6).completed_urls
      "https://example.com/a" = false :=
  have h := failure_isolation searchW2 fetchC6 ["news"] stateC6
    "https://example.com/a" "" (by unfold DictWF; decide) (by decide) (by decide) rfl
  ⟨h.1, h.2.1⟩

/-! ## C8 — loading the three tracking stores -/

/-- A parsed JSON value, at the level `_load_or_create_json` can observe. -/
inductive JsonValue where
  | obj (fields : List (String × JsonValue))
  | arr (xs : List JsonValue)
  | str (s : String)
  | num (n : Int)
  | boolean (b : Bool)
  | null

/-- Whether a parsed JSON value is a mapping (a Python `dict`). -/
def JsonValue.isObj : JsonValue → Bool
  | JsonValue.obj _ => true
  | _ => false

/-- The on-disk condition of one tracking store at load time: absent, present
but not parseable as JSON (`json.load` raises), or present and parsed. -/
inductive StoreFile where
  | missing
  | invalid
  | parsed (v : JsonValue)

/-- `ScrapeMaster._load_or_create_json`: a missing file yields the empty dict
`{}`; `json.load` on an unparseable file raises (`Except.error`), which
propagates out of `__init__` uncaught — fatal; a file that parses is returned
as-is, whatever shape the parsed value has. -/
def load_or_create_json : StoreFile → Except String JsonValue
  | StoreFile.missing => Except.ok (JsonValue.obj [])
  | StoreFile.invalid => Except.error "json.decoder.JSONDecodeError"
  | StoreFile.parsed v => Except.ok v

/-- C8 counterexample: a store file whose content parses as JSON but is not a
mapping (here the JSON list `[]`) is returned without any error — the load
does not fail, refuting the claimed storage-corruption failure for
non-mapping shapes. -/
theorem load_or_create_cex :
    load_or_create_json (StoreFile.parsed (JsonValue.arr [])) =
      Except.ok (JsonValue.arr []) ∧
    (JsonValue.arr []).isObj = false :=
  ⟨rfl, rfl⟩

/-- C8 (amended): at load time a missing store file initializes the mapping to
empty, and a file that cannot be parsed as JSON fails fatally; but the parsed
shape is never validated — content that parses as JSON of any non-mapping
shape is returned as-is and the program silently proceeds with it. -/
theorem load_or_create_spec (f : StoreFile) :
    (f = StoreFile.missing → load_or_create_json f = Except.ok (JsonValue.obj [])) ∧
    (f = StoreFile.invalid → ∃ m, load_or_create_json f = Except.error m) ∧
    (∀ v, f = StoreFile.parsed v → load_or_create_json f = Except.ok v) := by
  refine ⟨fun h => by rw [h]; rfl,
    fun h => ⟨"json.decoder.JSONDecodeError", by rw [h]; rfl⟩,
    fun v h => by rw [h]; rfl⟩

theorem load_or_create_spec_witness :
    load_or_create_json StoreFile.missing = Except.ok (JsonValue.obj []) :=
  (load_or_create_spec StoreFile.missing).1 rfl

/-! ## C7 — CLI topic-argument handling -/

/-- The exceptions `load_topics_from_file` can raise. -/
inductive CliError where
  | fileNotFound (msg : String)
  | valueError (msg : String)
deriving DecidableEq

/-- The shape-level view of what `json.load` / `yaml.safe_load` returned for a
topic file, as far as `load_topics_from_file` inspects it: a list, a dict with
a `topics` key, or anything else. -/
inductive TopicData where
  | list (xs : List String)
  | dictTopics (xs : List String)
  | other
deriving DecidableEq

/-- The filesystem and parser collaborators used by `load_topics_from_file`
and `main`: path existence, path suffix, and per-format parse results (`none`
models a parser exception). The `.txt` line extraction and the `.md` regex
bullet search are abstracted to the lists those collaborators produce. -/
structure TopicFS where
  pathExists : String → Bool
  suffix : String → String
  jsonData : String → Option TopicData
  yamlData : String → Option TopicData
  txtLines : String → List String
  mdBullets : String → List String
  mdLines : String → List String

/-- `ScrapeMaster.load_topics_from_file`: raise `FileNotFoundError` when the
path does not exist, then dispatch on the suffix — `.json`, `.yaml`/`.yml`,
`.txt`, `.md` — and raise `ValueError("Unsupported file format: <suffix>")`
for every other suffix. -/
def load_topics_from_file (fs : TopicFS) (p : String) : Except CliError (List String) :=
  if fs.pathExists p = false then
    Except.error (CliError.fileNotFound ("File not found: " ++ p))
  else if fs.suffix p = ".json" then
    match fs.jsonData p with
    | some (TopicData.list xs) => Except.ok xs
    | some (TopicData.dictTopics xs) => Except.ok xs
    | some TopicData.other =>
        Except.error (CliError.valueError
          "JSON file must contain a list or a dict with topics key")
    | none => Except.error (CliError.valueError "JSONDecodeError")
  else if fs.suffix p = ".yaml" || fs.suffix p = ".yml" then
    match fs.yamlData p with
    | some (TopicData.list xs) => Except.ok xs
    | some (TopicData.dictTopics xs) => Except.ok xs
    | some TopicData.other =>
        Except.error (CliError.valueError
          "YAML file must contain a list or a dict with topics key")
    | none => Except.error (CliError.valueError "YAMLError")
  else if fs.suffix p = ".txt" then
    Except.ok (fs.txtLines p)
  else if fs.suffix p = ".md" then
    (if (fs.mdBullets p).isEmpty = false then
      Except.ok ((fs.mdBullets p).map (fun t => String.mk (pyStrip t.data)))
    else Except.ok (fs.mdLines p))
  else
    Except.error (CliError.valueError ("Unsupported file format: " ++ fs.suffix p))

/-- The topic-argument resolution in `main`: `if Path(args.topics).exists()`
the file is loaded and re-joined with commas; otherwise the argument itself is
used as the literal comma-separated topic string. -/
def resolveTopicsStr (fs : TopicFS) (arg : String) : Except CliError String :=
  if fs.pathExists arg then
    match load_topics_from_file fs arg with
    | Except.ok ts => Except.ok (String.intercalate "," ts)
    | Except.error e => Except.error e
  else Except.ok arg

/-- `main` after argument parsing: resolve the topics argument, then construct
the scraper over the loaded stores and run `process_urls`. An exception during
resolution propagates before the scraper is constructed, so no state results
and nothing is persisted. -/
def mainRun (fs : TopicFS) (searchResults : String → List String)
    (fetch : String → FetchOutcome) (topicsArg : String) (loaded : State) :
    Except CliError State :=
  match resolveTopicsStr fs topicsArg with
  | Except.error e => Except.error e
  | Except.ok tstr =>
      Except.ok (process_urls searchResults fetch (splitTopics tstr) loaded)

/-- A filesystem on which no path exists. -/
def fsMissingW : TopicFS :=
  { pathExists := fun _ => false
    suffix := fun _ => ""
    jsonData := fun _ => none
    yamlData := fun _ => none
    txtLines := fun _ => []
    mdBullets := fun _ => []
    mdLines := fun _ => [] }

/-- A filesystem on which every path exists with a `.csv` suffix. -/
def fsCsvW : TopicFS :=
  { pathExists := fun _ => true
    suffix := fun _ => ".csv"
    jsonData := fun _ => none
    yamlData := fun _ => none
    txtLines := fun _ => []
    mdBullets := fun _ => []
    mdLines := fun _ => [] }

/-- C7 counterexample: a `--topics` argument referring to a file that does not
exist does NOT fail with a not-found error — `main` checks existence before
calling the loader and falls through to treating the argument as a literal
comma-separated topic string, so the run proceeds. -/
theorem cli_missing_path_cex :
    resolveTopicsStr fsMissingW "missing_topics.txt" =
      Except.ok "missing_topics.txt" ∧
    mainRun fsMissingW searchW2 fetchOkW "missing_topics.txt" stateW =
      Except.ok (process_urls searchW2 fetchOkW
        (splitTopics "missing_topics.txt") stateW) :=
  ⟨rfl, rfl⟩

/-- C7 (amended): `main` checks path existence first, so a `--topics` argument
naming a non-existent path is treated as the literal comma-separated topic
string (the loader's not-found error is unreachable from the CLI); an existing
file with an unsupported extension such as `.csv` fails with the
unsupported-format configuration error before the scraper is constructed, so
no state is produced or persisted. -/
theorem cli_topics_resolution (fs : TopicFS) (arg : String)
    (searchResults : String → List String) (fetch : String → FetchOutcome)
    (loaded : State) :
    (fs.pathExists arg = false → resolveTopicsStr fs arg = Except.ok arg) ∧
    (fs.pathExists arg = true → fs.suffix arg = ".csv" →
      mainRun fs searchResults fetch arg loaded =
        Except.error (CliError.valueError "Unsupported file format: .csv")) := by
  constructor
  · intro h
    unfold resolveTopicsStr
    rw [h]
    simp
  · intro hex hsuf
    unfold mainRun resolveTopicsStr load_topics_from_file
    rw [hex, hsuf]
    simp

theorem cli_topics_resolution_witness :
    mainRun fsCsvW searchW2 fetchOkW "topics.csv" stateW =
      Except.error (CliError.valueError "Unsupported file format: .csv") :=
  (cli_topics_resolution fsCsvW "topics.csv" searchW2 fetchOkW stateW).2 rfl rfl
